import Mathlib

/-!
Verification development for the irlib IR-basis generation core
(`src/c++/include/irlib/kernel.hpp`, `src/c++/include/irlib/basis.hpp`).

The numeric state of the C++ code (mpfr::mpreal / double values) is embedded
as exact rationals `ℚ` for the control-flow level of the SVD truncation/merge
step, and as real numbers `ℝ` for the analytic kernels and basis-function
evaluation.  C++ `throw std::runtime_error(msg)` is embedded as
`Except.error (.runtimeError msg)`; an out-of-bounds `std::vector` read
(undefined behavior) is embedded as the trap value `.oobRead`.
-/

namespace Irlib

/-- Which symmetry sector a singular triple came from. -/
inductive Sector where
  | even
  | odd
deriving DecidableEq

/-- One merged singular triple: the (double-cast) singular value together
with the sector and the column index of the left/right singular vectors
(`U_sector.col(i)` / `V_sector.col(i)`) that were pushed alongside it in
`generate_ir_basis_functions_impl`. -/
structure Triple where
  sv : ℚ
  sector : Sector
  col : Nat
deriving DecidableEq

instance : Inhabited Triple := ⟨⟨0, Sector.even, 0⟩⟩

/-- Errors surfaced by the embedded code.  `runtimeError msg` embeds
`throw std::runtime_error(msg)` and `python_runtime_check` failures;
`oobRead` embeds an out-of-bounds vector read (undefined behavior);
`configurationError` is the spec's ConfigurationError kind, which the
code never raises (modelled from the spec, section 7). -/
inductive IrError where
  | runtimeError (msg : String)
  | oobRead
  | configurationError
deriving DecidableEq

/-- The exact message of the monotonicity-violation `std::runtime_error`
thrown at kernel.hpp:277.  It is a fixed string literal: it interpolates
neither the sector nor the index of the violation. -/
def sv_error_msg : String :=
  "Singular values are not in decreasing order. This may be due to numerical round erros. You may ask for fewer basis functions!"

/-- C++ conversion of the `int max_dim` to `std::size_t`, as performed by the
comparison `sv.size() == max_dim` (the usual arithmetic conversions convert
the int operand to the unsigned 64-bit type). -/
def usize (m : Int) : Nat := (m % (2:Int)^64).toNat

/-- The truncation/merge loop body of `generate_ir_basis_functions_impl`
(kernel.hpp:258-271).  `ev` is the still-unprocessed tail of the even-sector
singular values (`svd_even.singularValues()[i..]`), `i` the loop counter,
`acc` the vector `sv` built so far (paired with the pushed U/V columns,
represented by their sector and column index).  `svO` is the full odd-sector
singular-value list, accessed as `svd_odd.singularValues()[i]`.  `s0` is
`svd_even.singularValues()[0]` and `maxDimU` the size_t image of `max_dim`. -/
def truncLoop (svO : List ℚ) (maxDimU : Nat) (cutoff s0 : ℚ) :
    List ℚ → Nat → List Triple → List Triple
  | [], _, acc => acc
  | e :: rest, i, acc =>
    if acc.length = maxDimU ∨ e / s0 < cutoff then acc
    else
      let acc1 := acc ++ [⟨e, Sector.even, i⟩]
      if acc1.length = maxDimU ∨ svO.getD i 0 / s0 < cutoff then acc1
      else truncLoop svO maxDimU cutoff s0 rest (i + 1) (acc1 ++ [⟨svO.getD i 0, Sector.odd, i⟩])

/-- The full truncation/merge step: runs `truncLoop` from `i = 0` with an
empty `sv` vector, with cutoff reference `s0 = svd_even.singularValues()[0]`
(kernel.hpp:257). -/
def truncMerge (svE svO : List ℚ) (maxDimU : Nat) (cutoff : ℚ) : List Triple :=
  truncLoop svO maxDimU cutoff (svE.getD 0 0) svE 0 []

/-- The loop bound `sv.size() - 1` of the monotonicity check
(kernel.hpp:275), computed in unsigned 64-bit arithmetic: for
`n = 0` it wraps around to `2^64 - 1`. -/
def checkBound (n : Nat) : Nat := (n + 2^64 - 1) % 2^64

/-- One unrolling layer of the monotonicity-check loop
`for (l = 0; l < sv.size()-1; ++l) if (sv[l] < sv[l+1]) throw ...`
(kernel.hpp:275-279).  `fuel` is the number of remaining iterations
(`bound - l`); each iteration reads `sv[l]` and `sv[l+1]`, trapping with
`oobRead` if either read is past the end of the vector. -/
def checkSteps (sv : List ℚ) : Nat → Nat → Except IrError Unit
  | _, 0 => Except.ok ()
  | l, fuel + 1 =>
    match sv.get? l, sv.get? (l + 1) with
    | some a, some b =>
      if a < b then Except.error (IrError.runtimeError sv_error_msg)
      else checkSteps sv (l + 1) fuel
    | _, _ => Except.error IrError.oobRead

/-- The full monotonicity check over the merged singular values, with the
wrap-prone unsigned loop bound. -/
def checkDecreasing (sv : List ℚ) : Except IrError Unit :=
  checkSteps sv 0 (checkBound sv.length)

/-- `generate_ir_basis_functions_impl` (kernel.hpp:233-343), restricted to
its singular-value part: the even/odd SVD results enter as the lists
`svE`/`svO` (Eigen's `BDCSVD::singularValues()`, sorted descending by the
decomposition's contract), the truncation/merge loop and the monotonicity
check are taken verbatim from the source.  The subsequent conversion of the
retained singular vectors into piecewise polynomials (`gen_pp`) and the
endpoint sign normalization are embedded separately (`normalize_signs`). -/
def generate_ir_basis_functions_impl (maxDim : Int) (cutoff : ℚ)
    (svE svO : List ℚ) : Except IrError (List Triple) :=
  (checkDecreasing ((truncMerge svE svO (usize maxDim) cutoff).map Triple.sv)).map
    (fun _ => truncMerge svE svO (usize maxDim) cutoff)

/-- `generate_ir_basis_functions` (kernel.hpp:350-390).  The source function
raises the process-wide mpfr precision, estimates section edges
(`compute_approximate_nodes_even_sector`) and calls the impl; it performs no
validation of `max_dim`, `cutoff` or `Nl` whatsoever.  The node estimation
and matrix/SVD computation are abstracted into the `svE`/`svO` inputs; the
`Nl` parameter is threaded through untouched as in the source. -/
def generate_ir_basis_functions (maxDim : Int) (cutoff : ℚ) (Nl : Int)
    (svE svO : List ℚ) : Except IrError (List Triple) :=
  let _ := Nl
  generate_ir_basis_functions_impl maxDim cutoff svE svO

/-- Whether the merged result contains the `i`-th triple of sector `sec`. -/
def emitted (res : List Triple) (sec : Sector) (i : Nat) : Bool :=
  res.any (fun t => decide (t.sector = sec ∧ t.col = i))

/-- The value of the full interleaved even/odd sequence at merged position
`k`: even positions hold even-sector values, odd positions odd-sector
values. -/
def ival (svE svO : List ℚ) (k : Nat) : ℚ :=
  if k % 2 = 0 then svE.getD (k / 2) 0 else svO.getD (k / 2) 0

/-- The `i`-th singular value of sector `sec`. -/
def sval (svE svO : List ℚ) (sec : Sector) (i : Nat) : ℚ :=
  match sec with
  | Sector.even => svE.getD i 0
  | Sector.odd => svO.getD i 0

/-- `fermionic_kernel::operator()` (kernel.hpp:54-65): branches on the
magnitude of `Λ·y` against the threshold `limit = 200.0`, with
`half_Lambda = 0.5 * Λ`. -/
noncomputable def fermionic_kernel (Λ x y : ℝ) : ℝ :=
  if Λ * y > 200 then Real.exp (-((1/2) * Λ) * x * y - ((1/2) * Λ) * y)
  else if Λ * y < -200 then Real.exp (-((1/2) * Λ) * x * y + ((1/2) * Λ) * y)
  else Real.exp (-((1/2) * Λ) * x * y) / (2 * Real.cosh (((1/2) * Λ) * y))

/-- The fermionic kernel exactly as claim C3 words it (spec section 4.1). -/
noncomputable def specFermionicKernel (Λ x y : ℝ) : ℝ :=
  if Λ * y > 200 then Real.exp (-(Λ/2) * x * y - (Λ/2) * y)
  else if Λ * y < -200 then Real.exp (-(Λ/2) * x * y + (Λ/2) * y)
  else Real.exp (-(Λ/2) * x * y) / (2 * Real.cosh ((Λ/2) * y))

/-- `bosonic_kernel::operator()` (kernel.hpp:96-109): handles the removable
singularity at `|Λ·y| < 1e-30`, then branches like the fermionic kernel; the
`Λ·y < -200` asymptotic branch carries the leading factor `-y` (not `y`). -/
noncomputable def bosonic_kernel (Λ x y : ℝ) : ℝ :=
  if |Λ * y| < 1/10^30 then Real.exp (-((1/2) * Λ) * x * y) / Λ
  else if Λ * y > 200 then y * Real.exp (-((1/2) * Λ) * x * y - ((1/2) * Λ) * y)
  else if Λ * y < -200 then -y * Real.exp (-((1/2) * Λ) * x * y + ((1/2) * Λ) * y)
  else y * Real.exp (-((1/2) * Λ) * x * y) / (2 * Real.sinh (((1/2) * Λ) * y))

/-- The bosonic kernel exactly as claim C4 words it: leading factor `y` in
both asymptotic branches. -/
noncomputable def specBosonicKernel (Λ x y : ℝ) : ℝ :=
  if |Λ * y| < 1/10^30 then Real.exp (-(Λ/2) * x * y) / Λ
  else if Λ * y > 200 then y * Real.exp (-(Λ/2) * x * y - (Λ/2) * y)
  else if Λ * y < -200 then y * Real.exp (-(Λ/2) * x * y + (Λ/2) * y)
  else y * Real.exp (-(Λ/2) * x * y) / (2 * Real.sinh ((Λ/2) * y))

/-- The bosonic kernel as claim C4 amended: the `Λ·y < -200` asymptotic
branch carries the leading factor `-y`, as the code does. -/
noncomputable def specBosonicKernelAmended (Λ x y : ℝ) : ℝ :=
  if |Λ * y| < 1/10^30 then Real.exp (-(Λ/2) * x * y) / Λ
  else if Λ * y > 200 then y * Real.exp (-(Λ/2) * x * y - (Λ/2) * y)
  else if Λ * y < -200 then -y * Real.exp (-(Λ/2) * x * y + (Λ/2) * y)
  else y * Real.exp (-(Λ/2) * x * y) / (2 * Real.sinh ((Λ/2) * y))

/-- Modelled from the spec: `piecewise_polynomial<double>::compute_value`
lives in `piecewise_polynomial.hpp`, which is not part of the analyzed
sources; the spec (section 3) describes a piecewise polynomial as an
immutable function on `[-1,1]`, so a stored basis function is embedded as
the bare evaluation function `ℝ → ℝ` and the basis as the list
`u_basis_` / `v_basis_` of those functions. -/
def BasisFun : Type := ℝ → ℝ

instance : Inhabited BasisFun := ⟨fun _ => 0⟩

/-- The value branch of `ir_basis_set::ulx` (basis.hpp:95-99): for
`x ≥ 0` evaluate `u_basis_[l]` at `x`; for negative `x` evaluate at the
reflected argument `-x` and apply the parity sign `(-1)^l`. -/
noncomputable def ulx_val (ub : List BasisFun) (l : Nat) (x : ℝ) : ℝ :=
  if x ≥ 0 then ub.getD l default x
  else ub.getD l default (-x) * (if l % 2 = 0 then 1 else -1)

/-- The value branch of `ir_basis_set::vly` (basis.hpp:119-123), identical
in structure to `ulx`. -/
noncomputable def vly_val (vb : List BasisFun) (l : Nat) (y : ℝ) : ℝ :=
  if y ≥ 0 then vb.getD l default y
  else vb.getD l default (-y) * (if l % 2 = 0 then 1 else -1)

/-- `ir_basis_set::ulx` (basis.hpp:83-100): `python_runtime_check` of the
index against `dim()` first, then of the argument against `[-1,1]`, each
throwing `std::runtime_error` with its fixed message, then the value
branch.  (The two subsequent plain `throw` statements in the source are
unreachable: the checks above them already threw.) -/
noncomputable def ulx (ub : List BasisFun) (l : Int) (x : ℝ) : Except IrError ℝ :=
  if l ≥ 0 ∧ l < (ub.length : Int) then
    if x ≥ -1 ∧ x ≤ 1 then Except.ok (ulx_val ub l.toNat x)
    else Except.error (IrError.runtimeError "x must be in [-1,1].")
  else Except.error (IrError.runtimeError "Index l is out of range.")

/-- `ir_basis_set::vly` (basis.hpp:108-124), identical in structure to
`ulx` but with the `y` domain message. -/
noncomputable def vly (vb : List BasisFun) (l : Int) (y : ℝ) : Except IrError ℝ :=
  if l ≥ 0 ∧ l < (vb.length : Int) then
    if y ≥ -1 ∧ y ≤ 1 then Except.ok (vly_val vb l.toNat y)
    else Except.error (IrError.runtimeError "y must be in [-1,1].")
  else Except.error (IrError.runtimeError "Index l is out of range.")

/-- The endpoint sign normalization loop of
`generate_ir_basis_functions_impl` (kernel.hpp:335-340): for each basis
index, if `u_basis_pp[i].compute_value(1) < 0` both the u- and the paired
v-function are multiplied by `-1.0`.  Scalar multiplication of a piecewise
polynomial (from the out-of-scope utility layer) is pointwise on the
embedded evaluation functions. -/
noncomputable def normalize_signs : List BasisFun → List BasisFun →
    List BasisFun × List BasisFun
  | u :: us, v :: vs =>
    if u 1 < 0 then
      ((fun x => -(u x)) :: (normalize_signs us vs).1,
       (fun x => -(v x)) :: (normalize_signs us vs).2)
    else (u :: (normalize_signs us vs).1, v :: (normalize_signs us vs).2)
  | _, _ => ([], [])

example : truncMerge [1, 1/2] [3/4, 1/4] (usize 4) (1/10) =
    [⟨1, Sector.even, 0⟩, ⟨3/4, Sector.odd, 0⟩, ⟨1/2, Sector.even, 1⟩, ⟨1/4, Sector.odd, 1⟩] := by
  have h4 : usize 4 = 4 := by decide
  rw [h4]
  norm_num [truncMerge, truncLoop, List.getD]

example : truncMerge [1] [1] (usize 0) (1/2) = [] := by
  have h0 : usize 0 = 0 := by decide
  rw [h0]
  norm_num [truncMerge, truncLoop, List.getD]

example : checkDecreasing [] = Except.error IrError.oobRead := by
  have h : checkBound 0 = (2^64 - 2) + 1 := by norm_num [checkBound]
  rw [checkDecreasing]
  simp only [List.length_nil, h]
  rw [checkSteps]
  rfl

example : checkDecreasing [1, 2] = Except.error (IrError.runtimeError sv_error_msg) := by
  have h : checkBound 2 = 0 + 1 := by norm_num [checkBound]
  rw [checkDecreasing]
  simp only [List.length_cons, List.length_nil, h]
  rw [checkSteps]
  norm_num [List.get?]

example : checkDecreasing [2, 1] = Except.ok () := by
  have h : checkBound 2 = 0 + 1 := by norm_num [checkBound]
  rw [checkDecreasing]
  simp only [List.length_cons, List.length_nil, h]
  rw [checkSteps]
  norm_num [List.get?]
  rw [checkSteps]

/-- Characterization of the truncation/merge loop, for any suffix `ev` of the
even-sector singular values and accumulator of even length `2 * i`:
the loop only appends; position `k` of the output holds the `k/2`-th triple
of the even (for even `k`) or odd (for odd `k`) sector; every emitted
position passed both stopping tests (count not equal to `max_dim`, value not
below the relative cutoff against `s0`); and if the loop stopped before
exhausting both sectors, the stopping test failed at the final count. -/
lemma truncLoop_char (svO : List ℚ) (m : Nat) (c s0 : ℚ) :
    ∀ ev : List ℚ, ∀ i : Nat, ∀ acc : List Triple, acc.length = 2 * i →
      ∃ t : List Triple,
        truncLoop svO m c s0 ev i acc = acc ++ t ∧
        (∀ k, acc.length ≤ k → k < acc.length + t.length →
          (acc ++ t).getD k default =
            (if k % 2 = 0 then Triple.mk (ev.getD (k / 2 - i) 0) Sector.even (k / 2)
             else Triple.mk (svO.getD (k / 2) 0) Sector.odd (k / 2)) ∧
          k ≠ m ∧
          ¬ ((if k % 2 = 0 then ev.getD (k / 2 - i) 0 else svO.getD (k / 2) 0) / s0 < c)) ∧
        (t.length < 2 * ev.length →
          acc.length + t.length = m ∨
          (if (acc.length + t.length) % 2 = 0
            then ev.getD ((acc.length + t.length) / 2 - i) 0
            else svO.getD ((acc.length + t.length) / 2) 0) / s0 < c) := by
  intro ev
  induction ev with
  | nil =>
    intro i acc hacc
    refine ⟨[], by rw [truncLoop, List.append_nil], ?_, ?_⟩
    · intro k h1 h2
      simp only [List.length_nil] at h2
      omega
    · intro h
      simp only [List.length_nil] at h
      omega
  | cons e rest ih =>
    intro i acc hacc
    simp only [truncLoop]
    by_cases h1 : acc.length = m ∨ e / s0 < c
    · rw [if_pos h1]
      refine ⟨[], (List.append_nil acc).symm, ?_, ?_⟩
      · intro k hk1 hk2
        simp only [List.length_nil] at hk2
        omega
      · intro _
        simp only [List.length_nil, Nat.add_zero]
        rw [if_pos (by omega : acc.length % 2 = 0)]
        have hq : acc.length / 2 - i = 0 := by omega
        rw [hq]
        simpa using h1
    · rw [if_neg h1]
      push_neg at h1
      obtain ⟨hm, hc⟩ := h1
      by_cases h2 : (acc ++ [Triple.mk e Sector.even i]).length = m ∨ svO.getD i 0 / s0 < c
      · rw [if_pos h2]
        refine ⟨[Triple.mk e Sector.even i], rfl, ?_, ?_⟩
        · intro k hk1 hk2
          simp only [List.length_cons, List.length_nil] at hk2
          have hk : k = acc.length := by omega
          subst hk
          refine ⟨?_, hm, ?_⟩
          · rw [List.getD_append_right _ _ _ _ (le_refl _), Nat.sub_self]
            rw [if_pos (by omega : acc.length % 2 = 0)]
            have : acc.length / 2 - i = 0 := by omega
            have hcol : acc.length / 2 = i := by omega
            rw [this, hcol]
            rfl
          · rw [if_pos (by omega : acc.length % 2 = 0)]
            have : acc.length / 2 - i = 0 := by omega
            rw [this]
            simpa using hc
        · intro _
          have hlen : (acc.length + List.length [Triple.mk e Sector.even i]) = acc.length + 1 := by
            simp
          rw [hlen]
          have hodd : (acc.length + 1) % 2 = 1 := by omega
          rw [if_neg (by omega : ¬ (acc.length + 1) % 2 = 0)]
          have hd : (acc.length + 1) / 2 = i := by omega
          rw [hd]
          simpa using h2
      · rw [if_neg h2]
        have hacc2 : ((acc ++ [Triple.mk e Sector.even i]) ++
            [Triple.mk (svO.getD i 0) Sector.odd i]).length = 2 * (i + 1) := by
          simp; omega
        obtain ⟨t', heq, hsecond, hthird⟩ := ih (i + 1) _ hacc2
        refine ⟨Triple.mk e Sector.even i :: Triple.mk (svO.getD i 0) Sector.odd i :: t', ?_, ?_, ?_⟩
        · rw [heq]
          simp
        · intro k hk1 hk2
          simp only [List.length_cons] at hk2
          push_neg at h2
          obtain ⟨hm2, hc2⟩ := h2
          simp only [List.length_append, List.length_cons, List.length_nil] at hm2
          rcases Nat.lt_or_ge k (acc.length + 1) with hklt | hkge1
          · -- k = acc.length : the even triple just pushed
            have hk : k = acc.length := by omega
            subst hk
            refine ⟨?_, hm, ?_⟩
            · rw [List.getD_append_right _ _ _ _ (le_refl _), Nat.sub_self]
              rw [if_pos (by omega : acc.length % 2 = 0)]
              have h0 : acc.length / 2 - i = 0 := by omega
              have hcol : acc.length / 2 = i := by omega
              rw [h0, hcol]
              rfl
            · rw [if_pos (by omega : acc.length % 2 = 0)]
              have h0 : acc.length / 2 - i = 0 := by omega
              rw [h0]
              simpa using hc
          rcases Nat.lt_or_ge k (acc.length + 2) with hklt2 | hkge2
          · -- k = acc.length + 1 : the odd triple just pushed
            have hk : k = acc.length + 1 := by omega
            subst hk
            refine ⟨?_, by omega, ?_⟩
            · rw [List.getD_append_right _ _ _ _ (by omega : acc.length ≤ acc.length + 1)]
              have h1 : acc.length + 1 - acc.length = 1 := by omega
              rw [h1]
              rw [if_neg (by omega : ¬ (acc.length + 1) % 2 = 0)]
              have hd : (acc.length + 1) / 2 = i := by omega
              rw [hd]
              rfl
            · rw [if_neg (by omega : ¬ (acc.length + 1) % 2 = 0)]
              have hd : (acc.length + 1) / 2 = i := by omega
              rw [hd]
              exact not_lt.mpr hc2
          · -- k ≥ acc.length + 2 : covered by the induction hypothesis
            have hk2' : k < ((acc ++ [Triple.mk e Sector.even i]) ++
                [Triple.mk (svO.getD i 0) Sector.odd i]).length + t'.length := by
              simp only [List.length_append, List.length_cons, List.length_nil]
              omega
            have hk1' : ((acc ++ [Triple.mk e Sector.even i]) ++
                [Triple.mk (svO.getD i 0) Sector.odd i]).length ≤ k := by
              simp only [List.length_append, List.length_cons, List.length_nil]
              omega
            obtain ⟨hv, hne, hrat⟩ := hsecond k hk1' hk2'
            have hsame : ((acc ++ [Triple.mk e Sector.even i]) ++
                [Triple.mk (svO.getD i 0) Sector.odd i]) ++ t' =
                acc ++ (Triple.mk e Sector.even i :: Triple.mk (svO.getD i 0) Sector.odd i :: t') := by
              simp
            rw [hsame] at hv
            have hstep : k / 2 - i = (k / 2 - (i + 1)) + 1 := by omega
            by_cases hpar : k % 2 = 0
            · rw [if_pos hpar] at hv hrat ⊢
              rw [if_pos hpar]
              rw [hstep, List.getD_cons_succ]
              exact ⟨hv, hne, hrat⟩
            · rw [if_neg hpar] at hv hrat ⊢
              rw [if_neg hpar]
              exact ⟨hv, hne, hrat⟩
        · intro hlt
          simp only [List.length_cons] at hlt ⊢
          have hlt' : t'.length < 2 * rest.length := by omega
          have := hthird hlt'
          have hlen2 : ((acc ++ [Triple.mk e Sector.even i]) ++
              [Triple.mk (svO.getD i 0) Sector.odd i]).length = acc.length + 2 := by
            simp
          rw [hlen2] at this
          have hpos : acc.length + (t'.length + 1 + 1) = (acc.length + 2) + t'.length := by omega
          rw [hpos]
          rcases this with hstop | hstop
          · exact Or.inl hstop
          · right
            have hstep : ((acc.length + 2) + t'.length) / 2 - i =
                (((acc.length + 2) + t'.length) / 2 - (i + 1)) + 1 := by omega
            by_cases hpar : ((acc.length + 2) + t'.length) % 2 = 0
            · rw [if_pos hpar] at hstop ⊢
              rw [hstep, List.getD_cons_succ]
              exact hstop
            · rw [if_neg hpar] at hstop ⊢
              exact hstop

/-- Top-level characterization of `truncMerge`: every merged position `k`
holds the `k/2`-th triple of the sector given by the parity of `k`, every
emitted position passed both stopping tests against the even-sector leading
singular value, and a stop before exhaustion means the test failed at the
stopping position. -/
lemma truncMerge_char (svE svO : List ℚ) (m : Nat) (c : ℚ) :
    (∀ k, k < (truncMerge svE svO m c).length →
      (truncMerge svE svO m c).getD k default =
        (if k % 2 = 0 then Triple.mk (svE.getD (k / 2) 0) Sector.even (k / 2)
         else Triple.mk (svO.getD (k / 2) 0) Sector.odd (k / 2)) ∧
      k ≠ m ∧ ¬ (ival svE svO k / svE.getD 0 0 < c)) ∧
    ((truncMerge svE svO m c).length < 2 * svE.length →
      (truncMerge svE svO m c).length = m ∨
      ival svE svO (truncMerge svE svO m c).length / svE.getD 0 0 < c) := by
  obtain ⟨t, heq, h2, h3⟩ :=
    truncLoop_char svO m c (svE.getD 0 0) svE 0 [] (by simp)
  have hres : truncMerge svE svO m c = t := by
    rw [truncMerge, heq, List.nil_append]
  constructor
  · intro k hk
    rw [hres] at hk
    have := h2 k (by simp) (by simpa using hk)
    rw [List.nil_append] at this
    obtain ⟨hv, hne, hrat⟩ := this
    refine ⟨?_, hne, ?_⟩
    · rw [hres]
      simpa using hv
    · rw [ival]
      simpa using hrat
  · intro hk
    rw [hres] at hk ⊢
    have := h3 hk
    rw [ival]
    simpa using this

/-- If the check loop finishes without throwing, every adjacent pair it
visited is non-increasing. -/
lemma checkSteps_ok (sv : List ℚ) :
    ∀ fuel l, checkSteps sv l fuel = Except.ok () →
      ∀ j, l ≤ j → j < l + fuel →
        ∀ a b, sv.get? j = some a → sv.get? (j + 1) = some b → b ≤ a := by
  intro fuel
  induction fuel with
  | zero => intro l _ j h1 h2; omega
  | succ fuel ih =>
    intro l hok j h1 h2 a b hja hjb
    rw [checkSteps] at hok
    rcases hga : sv.get? l with _ | ga
    · rw [hga] at hok; exact absurd hok (by simp)
    rcases hgb : sv.get? (l + 1) with _ | gb
    · rw [hga, hgb] at hok; exact absurd hok (by simp)
    rw [hga, hgb] at hok
    simp only at hok
    by_cases hlt : ga < gb
    · rw [if_pos hlt] at hok; exact absurd hok (by simp)
    · rw [if_neg hlt] at hok
      rcases Nat.eq_or_lt_of_le h1 with heq | hlt2
      · subst heq
        rw [hja] at hga
        rw [hjb] at hgb
        cases hga
        cases hgb
        exact not_lt.mp hlt
      · exact ih (l + 1) hok j hlt2 (by omega) a b hja hjb

/-- If some adjacent pair inside the visited window increases, the check
loop throws the fixed monotonicity error message. -/
lemma checkSteps_error_msg (sv : List ℚ) :
    ∀ fuel l, (∃ j, l ≤ j ∧ j < l + fuel ∧ sv.getD j 0 < sv.getD (j + 1) 0) →
      l + fuel < sv.length →
      checkSteps sv l fuel = Except.error (IrError.runtimeError sv_error_msg) := by
  intro fuel
  induction fuel with
  | zero =>
    intro l hj _
    obtain ⟨j, h1, h2, _⟩ := hj
    omega
  | succ fuel ih =>
    intro l hj hb
    obtain ⟨j, h1, h2, hv⟩ := hj
    have hla : l < sv.length := by omega
    have hlb : l + 1 < sv.length := by omega
    rw [checkSteps]
    rw [List.get?_eq_get hla, List.get?_eq_get hlb]
    simp only
    by_cases hlt : sv.get ⟨l, hla⟩ < sv.get ⟨l + 1, hlb⟩
    · rw [if_pos hlt]
    · rw [if_neg hlt]
      have hjl : j ≠ l := by
        intro hjeq
        subst hjeq
        rw [List.getD_eq_getElem _ _ hla, List.getD_eq_getElem _ _ hlb] at hv
        simp only [List.get_eq_getElem] at hlt
        exact hlt hv
      exact ih (l + 1) ⟨j, by omega, by omega, hv⟩ (by omega)

/-- The check loop never produces the spec's ConfigurationError kind. -/
lemma checkSteps_no_config (sv : List ℚ) :
    ∀ fuel l, checkSteps sv l fuel ≠ Except.error IrError.configurationError := by
  intro fuel
  induction fuel with
  | zero => intro l h; exact absurd h (by rw [checkSteps]; simp)
  | succ fuel ih =>
    intro l h
    rw [checkSteps] at h
    rcases hga : sv.get? l with _ | ga
    · rw [hga] at h; simp at h
    rcases hgb : sv.get? (l + 1) with _ | gb
    · rw [hga, hgb] at h; simp at h
    rw [hga, hgb] at h
    simp only at h
    by_cases hlt : ga < gb
    · rw [if_pos hlt] at h; simp at h
    · rw [if_neg hlt] at h; exact ih (l + 1) h

/-- On the empty merged sequence the unsigned loop bound wraps around and
the first iteration reads past the end of the vector. -/
lemma checkDecreasing_nil : checkDecreasing ([] : List ℚ) = Except.error IrError.oobRead := by
  have h : checkBound 0 = (2 ^ 64 - 2) + 1 := by norm_num [checkBound]
  rw [checkDecreasing]
  simp only [List.length_nil, h]
  rw [checkSteps]
  rfl

/-- The merged sequence never exceeds the size_t image of `max_dim`. -/
lemma truncMerge_length_le (svE svO : List ℚ) (m : Nat) (c : ℚ) :
    (truncMerge svE svO m c).length ≤ m := by
  by_contra h
  push_neg at h
  obtain ⟨_, hne, _⟩ := (truncMerge_char svE svO m c).1 m h
  exact hne rfl

/-- The size_t image of any int is below `2^64`. -/
lemma usize_lt (m : Int) : usize m < 2 ^ 64 := by
  rw [usize]
  have h1 : m % (2:Int) ^ 64 < (2:Int) ^ 64 := Int.emod_lt_of_pos m (by positivity)
  omega

/-- For an in-range non-negative int the size_t conversion is the identity. -/
lemma usize_of_nonneg {m : Int} (h0 : 0 ≤ m) (h1 : m < 2 ^ 64) :
    (usize m : Int) = m := by
  rw [usize, Int.emod_eq_of_lt h0 h1, Int.toNat_of_nonneg h0]

/-- For a non-empty vector shorter than `2^64` the unsigned loop bound is
the intended `size - 1`. -/
lemma checkBound_eq {n : Nat} (h1 : 1 ≤ n) (h2 : n < 2 ^ 64) :
    checkBound n = n - 1 := by
  have hp : (2:Nat) ^ 64 = 18446744073709551616 := by norm_num
  rw [checkBound, hp]
  rw [hp] at h2
  omega

/-- A successful `Except.map` came from a successful argument. -/
lemma except_map_ok {ε α β : Type} (f : α → β) (x : Except ε α) (b : β)
    (h : x.map f = Except.ok b) : ∃ a, x = Except.ok a ∧ f a = b := by
  cases x with
  | error e => exact absurd h (by simp [Except.map])
  | ok a =>
    refine ⟨a, rfl, ?_⟩
    simpa [Except.map] using h

/-- `Except.map` never turns an error into a success and keeps the error. -/
lemma except_map_error {ε α β : Type} (f : α → β) (e : ε) :
    (Except.error e : Except ε α).map f = Except.error e := rfl

/-- Successful construction means the truncation result passed the
monotonicity check unchanged. -/
lemma generate_impl_ok {maxDim : Int} {cutoff : ℚ} {svE svO : List ℚ}
    {res : List Triple}
    (h : generate_ir_basis_functions_impl maxDim cutoff svE svO = Except.ok res) :
    res = truncMerge svE svO (usize maxDim) cutoff ∧
    checkDecreasing (res.map Triple.sv) = Except.ok () := by
  unfold generate_ir_basis_functions_impl at h
  obtain ⟨a, hx, hfa⟩ := except_map_ok _ _ _ h
  cases a
  refine ⟨hfa.symm, ?_⟩
  rw [← hfa]
  exact hx

/-- `getD` with default `0` on a list of non-negatives is non-negative. -/
lemma getD_nonneg {l : List ℚ} (h : ∀ a ∈ l, 0 ≤ a) (j : Nat) : 0 ≤ l.getD j 0 := by
  rcases Nat.lt_or_ge j l.length with hj | hj
  · rw [List.getD_eq_getElem _ _ hj]
    exact h _ (List.getElem_mem hj)
  · rw [List.getD_eq_default _ _ hj]

/-- If the interleaved even/odd sequence is step-wise non-increasing on
`[0, 2·|svE|)`, it is non-increasing between any two positions there. -/
lemma ival_le_of_le (svE svO : List ℚ)
    (hchain : ∀ k, k + 1 < 2 * svE.length → ival svE svO (k + 1) ≤ ival svE svO k) :
    ∀ p q, q ≤ p → p < 2 * svE.length → ival svE svO p ≤ ival svE svO q := by
  intro p
  induction p with
  | zero =>
    intro q hq _
    have : q = 0 := by omega
    subst this
    exact le_refl _
  | succ p ih =>
    intro q hq hp
    rcases Nat.eq_or_lt_of_le hq with heq | hlt
    · subst heq
      exact le_refl _
    · exact le_trans (hchain p hp) (ih q (by omega) (by omega))

/-- Unfolding of a negative `emitted` test. -/
lemma emitted_false {res : List Triple} {sec : Sector} {i : Nat}
    (h : emitted res sec i = false) :
    ∀ t ∈ res, ¬ (t.sector = sec ∧ t.col = i) := by
  intro t ht hcontra
  rw [emitted] at h
  rw [List.any_eq_false] at h
  have := h t ht
  simp only [decide_eq_true_eq] at this
  exact this hcontra

/-- Reading the `k`-th entry of the singular-value vector for an in-bounds
index. -/
lemma map_sv_get? (T : List Triple) (k : Nat) (hk : k < T.length) :
    (T.map Triple.sv).get? k = some ((T.getD k default).sv) := by
  rw [List.get?_eq_getElem?, List.getElem?_map, List.getElem?_eq_getElem hk,
    List.getD_eq_getElem _ _ hk]
  rfl

/-- Claim C1 counterexample: with `max_dim = 1`, even singular values
`[1, 9/10]`, odd singular values `[19/20]` and cutoff `1/2`, construction
succeeds retaining only the leading even value, yet the excluded odd-sector
leading singular value has relative magnitude `19/20 ≥ 1/2`: an excluded
singular value need NOT be below the cutoff when the stop was caused by
reaching `max_dim`. -/
theorem C1_counterexample :
    generate_ir_basis_functions_impl 1 (1/2) [1, 9/10] [19/20] =
      Except.ok [Triple.mk 1 Sector.even 0] ∧
    emitted [Triple.mk 1 Sector.even 0] Sector.odd 0 = false ∧
    ¬ (([19/20] : List ℚ).getD 0 0 / ([1, 9/10] : List ℚ).getD 0 0 < 1/2) := by
  refine ⟨?_, by decide, by norm_num [List.getD]⟩
  have h1 : usize 1 = 1 := by decide
  have hres : truncMerge [1, 9/10] [19/20] (usize 1) (1/2) = [Triple.mk 1 Sector.even 0] := by
    rw [h1]
    norm_num [truncMerge, truncLoop, List.getD]
  have hb : checkBound 1 = 0 := by norm_num [checkBound]
  unfold generate_ir_basis_functions_impl
  rw [hres]
  have hmap : [Triple.mk 1 Sector.even 0].map Triple.sv = [(1 : ℚ)] := rfl
  rw [hmap]
  have hchk : checkDecreasing [(1 : ℚ)] = Except.ok () := by
    rw [checkDecreasing]
    simp only [List.length_cons, List.length_nil, hb]
    rfl
  rw [hchk]
  rfl

/-- Claim C1 (amended): for every successful construction the retained
singular-value sequence is non-increasing and non-negative, the retained
dimension is at most the requested `max_dim`, and every retained singular
value has relative magnitude at least the cutoff (relative to the
even-sector leading value, which is the merged `sv_0`).  The clause of the
original claim that every EXCLUDED singular value has relative magnitude
below the cutoff fails when the stop was caused by reaching `max_dim`
(see the counterexample); it holds in the amended form: when the retained
dimension is strictly below `max_dim` and the exact interleaved even/odd
sequence is non-increasing (true in exact arithmetic), every excluded
singular value of either sector is below the cutoff. -/
theorem C1_invariants_amended (maxDim : Int) (cutoff : ℚ) (svE svO : List ℚ)
    (res : List Triple)
    (hE : ∀ a ∈ svE, 0 ≤ a) (hO : ∀ a ∈ svO, 0 ≤ a)
    (hmd0 : 0 ≤ maxDim) (hmd1 : maxDim < 2 ^ 31)
    (hok : generate_ir_basis_functions_impl maxDim cutoff svE svO = Except.ok res) :
    (∀ k, k + 1 < res.length →
      (res.getD (k + 1) default).sv ≤ (res.getD k default).sv) ∧
    (∀ t ∈ res, 0 ≤ t.sv) ∧
    ((res.length : Int) ≤ maxDim) ∧
    (∀ t ∈ res, cutoff ≤ t.sv / svE.getD 0 0) ∧
    (res.length < usize maxDim →
      svO.length = svE.length →
      0 < svE.getD 0 0 →
      (∀ k, k + 1 < 2 * svE.length → ival svE svO (k + 1) ≤ ival svE svO k) →
      ∀ sec i, i < svE.length → emitted res sec i = false →
        sval svE svO sec i / svE.getD 0 0 < cutoff) := by
  obtain ⟨hres, hchk⟩ := generate_impl_ok hok
  have hchar := truncMerge_char svE svO (usize maxDim) cutoff
  rw [← hres] at hchar
  have hlen_le : res.length ≤ usize maxDim := by
    rw [hres]
    exact truncMerge_length_le svE svO (usize maxDim) cutoff
  have hlen_lt : res.length < 2 ^ 64 := lt_of_le_of_lt hlen_le (usize_lt maxDim)
  refine ⟨?_, ?_, ?_, ?_, ?_⟩
  · -- adjacent non-increase from the successful check
    intro k hk
    have hn1 : 1 ≤ (res.map Triple.sv).length := by
      rw [List.length_map]
      omega
    have hn2 : (res.map Triple.sv).length < 2 ^ 64 := by
      rw [List.length_map]
      omega
    rw [checkDecreasing, checkBound_eq hn1 hn2] at hchk
    exact checkSteps_ok (res.map Triple.sv) _ 0 hchk k (Nat.zero_le k)
      (by rw [List.length_map]; omega) _ _
      (map_sv_get? res k (by omega)) (map_sv_get? res (k + 1) (by omega))
  · -- non-negativity from the SVD contract on the inputs
    intro t ht
    obtain ⟨⟨k, hk⟩, heq⟩ := List.mem_iff_get.mp ht
    obtain ⟨hv, -, -⟩ := hchar.1 k hk
    have ht2 : t = res.getD k default := by
      rw [List.getD_eq_getElem _ _ hk, ← heq, List.get_eq_getElem]
    rw [ht2, hv]
    by_cases hpar : k % 2 = 0
    · rw [if_pos hpar]
      exact getD_nonneg hE _
    · rw [if_neg hpar]
      exact getD_nonneg hO _
  · -- dimension bound
    have hcast : (usize maxDim : Int) = maxDim :=
      usize_of_nonneg hmd0 (lt_trans hmd1 (by norm_num))
    calc (res.length : Int) ≤ (usize maxDim : Int) := by exact_mod_cast hlen_le
      _ = maxDim := hcast
  · -- retained ratios
    intro t ht
    obtain ⟨⟨k, hk⟩, heq⟩ := List.mem_iff_get.mp ht
    obtain ⟨hv, -, hrat⟩ := hchar.1 k hk
    have ht2 : t = res.getD k default := by
      rw [List.getD_eq_getElem _ _ hk, ← heq, List.get_eq_getElem]
    have hsv : t.sv = ival svE svO k := by
      rw [ht2, hv, ival]
      by_cases hpar : k % 2 = 0
      · rw [if_pos hpar, if_pos hpar]
      · rw [if_neg hpar, if_neg hpar]
    rw [hsv]
    exact not_lt.mp hrat
  · -- excluded ratios, amended
    intro hlen hlenEq hs0 hchain sec i hi hnot
    have hemit := emitted_false hnot
    have key : ∀ p, p < 2 * svE.length → res.length ≤ p →
        ival svE svO p / svE.getD 0 0 < cutoff := by
      intro p hplt hpn
      have hnlt : res.length < 2 * svE.length := lt_of_le_of_lt hpn hplt
      rcases hchar.2 hnlt with hstop | hstop
      · omega
      · exact lt_of_le_of_lt
          ((div_le_div_iff_of_pos_right hs0).mpr
            (ival_le_of_le svE svO hchain p res.length hpn hplt)) hstop
    cases sec with
    | even =>
      have hpn : res.length ≤ 2 * i := by
        by_contra hcon
        push_neg at hcon
        obtain ⟨hv, -, -⟩ := hchar.1 (2 * i) hcon
        have hmem : res.getD (2 * i) default ∈ res := by
          rw [List.getD_eq_getElem _ _ hcon]
          exact List.getElem_mem hcon
        refine hemit _ hmem ?_
        rw [hv, if_pos (by omega : (2 * i) % 2 = 0)]
        exact ⟨rfl, show (2 * i) / 2 = i by omega⟩
      have h1 := key (2 * i) (by omega) hpn
      have h2 : sval svE svO Sector.even i = ival svE svO (2 * i) := by
        have e2 : ival svE svO (2 * i) = svE.getD ((2 * i) / 2) 0 := by
          rw [ival, if_pos (by omega : (2 * i) % 2 = 0)]
        rw [e2]
        have hdiv : (2 * i) / 2 = i := by omega
        rw [hdiv]
        rfl
      rw [h2]
      exact h1
    | odd =>
      have hpn : res.length ≤ 2 * i + 1 := by
        by_contra hcon
        push_neg at hcon
        obtain ⟨hv, -, -⟩ := hchar.1 (2 * i + 1) hcon
        have hmem : res.getD (2 * i + 1) default ∈ res := by
          rw [List.getD_eq_getElem _ _ hcon]
          exact List.getElem_mem hcon
        refine hemit _ hmem ?_
        rw [hv, if_neg (by omega : ¬ (2 * i + 1) % 2 = 0)]
        exact ⟨rfl, show (2 * i + 1) / 2 = i by omega⟩
      have h1 := key (2 * i + 1) (by omega) hpn
      have h2 : sval svE svO Sector.odd i = ival svE svO (2 * i + 1) := by
        have e2 : ival svE svO (2 * i + 1) = svO.getD ((2 * i + 1) / 2) 0 := by
          rw [ival, if_neg (by omega : ¬ (2 * i + 1) % 2 = 0)]
        rw [e2]
        have hdiv : (2 * i + 1) / 2 = i := by omega
        rw [hdiv]
        rfl
      rw [h2]
      exact h1

/-- Witness for claim C1's amended theorem at a concrete input on which all
hypotheses hold. -/
theorem C1_invariants_amended_witness :
    generate_ir_basis_functions_impl 4 (1/10) [1, 1/2] [3/4, 1/4] =
      Except.ok [Triple.mk 1 Sector.even 0, Triple.mk (3/4) Sector.odd 0,
        Triple.mk (1/2) Sector.even 1, Triple.mk (1/4) Sector.odd 1] ∧
    ((∀ k, k + 1 < ([Triple.mk 1 Sector.even 0, Triple.mk (3/4) Sector.odd 0,
        Triple.mk (1/2) Sector.even 1, Triple.mk (1/4) Sector.odd 1] : List Triple).length →
      (([Triple.mk 1 Sector.even 0, Triple.mk (3/4) Sector.odd 0,
        Triple.mk (1/2) Sector.even 1,
        Triple.mk (1/4) Sector.odd 1] : List Triple).getD (k + 1) default).sv ≤
      (([Triple.mk 1 Sector.even 0, Triple.mk (3/4) Sector.odd 0,
        Triple.mk (1/2) Sector.even 1,
        Triple.mk (1/4) Sector.odd 1] : List Triple).getD k default).sv) ∧
    (∀ t ∈ ([Triple.mk 1 Sector.even 0, Triple.mk (3/4) Sector.odd 0,
        Triple.mk (1/2) Sector.even 1, Triple.mk (1/4) Sector.odd 1] : List Triple),
      0 ≤ t.sv) ∧
    ((([Triple.mk 1 Sector.even 0, Triple.mk (3/4) Sector.odd 0,
        Triple.mk (1/2) Sector.even 1,
        Triple.mk (1/4) Sector.odd 1] : List Triple).length : Int) ≤ 4) ∧
    (∀ t ∈ ([Triple.mk 1 Sector.even 0, Triple.mk (3/4) Sector.odd 0,
        Triple.mk (1/2) Sector.even 1, Triple.mk (1/4) Sector.odd 1] : List Triple),
      (1:ℚ)/10 ≤ t.sv / ([1, 1/2] : List ℚ).getD 0 0) ∧
    (([Triple.mk 1 Sector.even 0, Triple.mk (3/4) Sector.odd 0,
        Triple.mk (1/2) Sector.even 1,
        Triple.mk (1/4) Sector.odd 1] : List Triple).length < usize 4 →
      ([3/4, 1/4] : List ℚ).length = ([1, 1/2] : List ℚ).length →
      0 < ([1, 1/2] : List ℚ).getD 0 0 →
      (∀ k, k + 1 < 2 * ([1, 1/2] : List ℚ).length →
        ival [1, 1/2] [3/4, 1/4] (k + 1) ≤ ival [1, 1/2] [3/4, 1/4] k) →
      ∀ sec i, i < ([1, 1/2] : List ℚ).length →
        emitted [Triple.mk 1 Sector.even 0, Triple.mk (3/4) Sector.odd 0,
          Triple.mk (1/2) Sector.even 1, Triple.mk (1/4) Sector.odd 1] sec i = false →
        sval [1, 1/2] [3/4, 1/4] sec i / ([1, 1/2] : List ℚ).getD 0 0 < 1/10)) := by
  have h4 : usize 4 = 4 := by decide
  have hres : truncMerge [1, 1/2] [3/4, 1/4] (usize 4) (1/10) =
      [Triple.mk 1 Sector.even 0, Triple.mk (3/4) Sector.odd 0,
       Triple.mk (1/2) Sector.even 1, Triple.mk (1/4) Sector.odd 1] := by
    rw [h4]
    norm_num [truncMerge, truncLoop, List.getD]
  have hok : generate_ir_basis_functions_impl 4 (1/10) [1, 1/2] [3/4, 1/4] =
      Except.ok [Triple.mk 1 Sector.even 0, Triple.mk (3/4) Sector.odd 0,
        Triple.mk (1/2) Sector.even 1, Triple.mk (1/4) Sector.odd 1] := by
    unfold generate_ir_basis_functions_impl
    rw [hres]
    have hmap : ([Triple.mk 1 Sector.even 0, Triple.mk (3/4) Sector.odd 0,
        Triple.mk (1/2) Sector.even 1, Triple.mk (1/4) Sector.odd 1]).map Triple.sv =
        [(1:ℚ), 3/4, 1/2, 1/4] := rfl
    rw [hmap]
    have hb : checkBound 4 = 2 + 1 := by norm_num [checkBound]
    have hchk : checkDecreasing [(1:ℚ), 3/4, 1/2, 1/4] = Except.ok () := by
      rw [checkDecreasing]
      simp only [List.length_cons, List.length_nil, hb]
      rw [checkSteps]
      norm_num [List.get?]
      rw [checkSteps]
      norm_num [List.get?]
      rw [checkSteps]
      norm_num [List.get?]
      rw [checkSteps]
    rw [hchk]
    rfl
  refine ⟨hok, ?_⟩
  exact C1_invariants_amended 4 (1/10) [1, 1/2] [3/4, 1/4] _
    (by norm_num) (by norm_num) (by norm_num) (by norm_num) hok

/-- Claim C2: the truncation/merge step interleaves the sectors in
lock-step: merged position `2i` holds the `i`-th even triple and `2i+1` the
`i`-th odd triple; a triple is emitted at count `k` only if `k` differs from
(the size_t image of) `max_dim` and its singular value passes the relative
cutoff against the even-sector leading singular value `svE.getD 0 0` — for
BOTH sectors; and a stop before exhausting the sectors means that test
failed exactly at the stopping count. -/
theorem C2_lockstep_merge (svE svO : List ℚ) (maxDim : Int) (cutoff : ℚ) :
    (∀ k, k < (truncMerge svE svO (usize maxDim) cutoff).length →
      (truncMerge svE svO (usize maxDim) cutoff).getD k default =
        (if k % 2 = 0 then Triple.mk (svE.getD (k / 2) 0) Sector.even (k / 2)
         else Triple.mk (svO.getD (k / 2) 0) Sector.odd (k / 2)) ∧
      k ≠ usize maxDim ∧
      ¬ ((if k % 2 = 0 then svE.getD (k / 2) 0 else svO.getD (k / 2) 0) /
          svE.getD 0 0 < cutoff)) ∧
    ((truncMerge svE svO (usize maxDim) cutoff).length < 2 * svE.length →
      (truncMerge svE svO (usize maxDim) cutoff).length = usize maxDim ∨
      (if (truncMerge svE svO (usize maxDim) cutoff).length % 2 = 0
        then svE.getD ((truncMerge svE svO (usize maxDim) cutoff).length / 2) 0
        else svO.getD ((truncMerge svE svO (usize maxDim) cutoff).length / 2) 0) /
        svE.getD 0 0 < cutoff) := by
  obtain ⟨h1, h2⟩ := truncMerge_char svE svO (usize maxDim) cutoff
  constructor
  · intro k hk
    obtain ⟨hv, hne, hrat⟩ := h1 k hk
    rw [ival] at hrat
    exact ⟨hv, hne, hrat⟩
  · intro hlt
    have := h2 hlt
    rw [ival] at this
    exact this

/-- Witness for claim C2's theorem at a concrete input, position 1 (the
leading odd-sector triple sits at merged index 1 = 2·0+1). -/
theorem C2_lockstep_merge_witness :
    1 < (truncMerge [1, 1/2] [3/4, 1/4] (usize 4) (1/10)).length ∧
    ((truncMerge [1, 1/2] [3/4, 1/4] (usize 4) (1/10)).getD 1 default =
        (if 1 % 2 = 0
          then Triple.mk (([1, 1/2] : List ℚ).getD (1 / 2) 0) Sector.even (1 / 2)
          else Triple.mk (([3/4, 1/4] : List ℚ).getD (1 / 2) 0) Sector.odd (1 / 2)) ∧
      1 ≠ usize 4 ∧
      ¬ ((if 1 % 2 = 0 then ([1, 1/2] : List ℚ).getD (1 / 2) 0
          else ([3/4, 1/4] : List ℚ).getD (1 / 2) 0) /
          ([1, 1/2] : List ℚ).getD 0 0 < 1/10)) := by
  have h4 : usize 4 = 4 := by decide
  have hres : truncMerge [1, 1/2] [3/4, 1/4] (usize 4) (1/10) =
      [Triple.mk 1 Sector.even 0, Triple.mk (3/4) Sector.odd 0,
       Triple.mk (1/2) Sector.even 1, Triple.mk (1/4) Sector.odd 1] := by
    rw [h4]
    norm_num [truncMerge, truncLoop, List.getD]
  have hlen : 1 < (truncMerge [1, 1/2] [3/4, 1/4] (usize 4) (1/10)).length := by
    rw [hres]
    norm_num
  exact ⟨hlen, (C2_lockstep_merge [1, 1/2] [3/4, 1/4] 4 (1/10)).1 1 hlen⟩

/-- A `max_dim` whose size_t image is zero stops the truncation loop before
the first emission. -/
lemma truncMerge_zero (svE svO : List ℚ) (cutoff : ℚ) :
    truncMerge svE svO 0 cutoff = [] := by
  cases svE with
  | nil => rw [truncMerge, truncLoop]
  | cons e rest =>
    rw [truncMerge, truncLoop]
    simp

/-- `Except.map` cannot invent an error: a mapped error came from the
argument unchanged. -/
lemma except_map_error_inv {ε α β : Type} (f : α → β) (x : Except ε α) (e : ε)
    (h : x.map f = Except.error e) : x = Except.error e := by
  cases x with
  | error e2 =>
    simp only [Except.map] at h
    injection h with h2
    rw [h2]
  | ok a => exact absurd h (by simp [Except.map])

/-- Claim C8 counterexample: two constructions whose merged sequences
violate monotonicity at DIFFERENT sectors and indices (first input: merged
sequence `[1, 2, 1, 2]`, first violation at merged index 0, an even-sector
entry; second input: merged sequence `[5, 3, 4, 2]`, violation at merged
index 1, an odd-sector entry) surface the IDENTICAL error value, the fixed
message string: the surfaced error carries no information about which
sector or which index violated monotonicity. -/
theorem C8_counterexample :
    generate_ir_basis_functions_impl 10 (1/10) [1, 1] [2, 2] =
      Except.error (IrError.runtimeError sv_error_msg) ∧
    generate_ir_basis_functions_impl 10 (1/10) [5, 4] [3, 2] =
      Except.error (IrError.runtimeError sv_error_msg) := by
  have h10 : usize 10 = 10 := by decide
  have hb : checkBound 4 = 2 + 1 := by norm_num [checkBound]
  constructor
  · have hres : truncMerge [1, 1] [2, 2] (usize 10) (1/10) =
        [Triple.mk 1 Sector.even 0, Triple.mk 2 Sector.odd 0,
         Triple.mk 1 Sector.even 1, Triple.mk 2 Sector.odd 1] := by
      rw [h10]
      norm_num [truncMerge, truncLoop, List.getD]
    unfold generate_ir_basis_functions_impl
    rw [hres]
    have hmap : ([Triple.mk 1 Sector.even 0, Triple.mk 2 Sector.odd 0,
        Triple.mk 1 Sector.even 1, Triple.mk 2 Sector.odd 1]).map Triple.sv =
        [(1:ℚ), 2, 1, 2] := rfl
    rw [hmap]
    have hchk : checkDecreasing [(1:ℚ), 2, 1, 2] =
        Except.error (IrError.runtimeError sv_error_msg) := by
      rw [checkDecreasing]
      simp only [List.length_cons, List.length_nil, hb]
      rw [checkSteps]
      norm_num [List.get?]
    rw [hchk]
    rfl
  · have hres : truncMerge [5, 4] [3, 2] (usize 10) (1/10) =
        [Triple.mk 5 Sector.even 0, Triple.mk 3 Sector.odd 0,
         Triple.mk 4 Sector.even 1, Triple.mk 2 Sector.odd 1] := by
      rw [h10]
      norm_num [truncMerge, truncLoop, List.getD]
    unfold generate_ir_basis_functions_impl
    rw [hres]
    have hmap : ([Triple.mk 5 Sector.even 0, Triple.mk 3 Sector.odd 0,
        Triple.mk 4 Sector.even 1, Triple.mk 2 Sector.odd 1]).map Triple.sv =
        [(5:ℚ), 3, 4, 2] := rfl
    rw [hmap]
    have hchk : checkDecreasing [(5:ℚ), 3, 4, 2] =
        Except.error (IrError.runtimeError sv_error_msg) := by
      rw [checkDecreasing]
      simp only [List.length_cons, List.length_nil, hb]
      rw [checkSteps]
      norm_num [List.get?]
      rw [checkSteps]
      norm_num [List.get?]
    rw [hchk]
    rfl

/-- Claim C8 (amended): whenever the merged singular-value sequence
violates monotonicity at some adjacent pair, the construction fails fatally
(no basis is produced, nothing is silently truncated) with the
`std::runtime_error` carrying the FIXED message string, which does not
identify the violating sector or index. -/
theorem C8_monotonicity_fatal (maxDim : Int) (cutoff : ℚ) (svE svO : List ℚ)
    (h : ∃ l, l + 1 < (truncMerge svE svO (usize maxDim) cutoff).length ∧
      ((truncMerge svE svO (usize maxDim) cutoff).map Triple.sv).getD l 0 <
      ((truncMerge svE svO (usize maxDim) cutoff).map Triple.sv).getD (l + 1) 0) :
    generate_ir_basis_functions_impl maxDim cutoff svE svO =
      Except.error (IrError.runtimeError sv_error_msg) := by
  obtain ⟨l, hl, hv⟩ := h
  have hn : (truncMerge svE svO (usize maxDim) cutoff).length ≤ usize maxDim :=
    truncMerge_length_le svE svO (usize maxDim) cutoff
  have hn64 : (truncMerge svE svO (usize maxDim) cutoff).length < 2 ^ 64 :=
    lt_of_le_of_lt hn (usize_lt maxDim)
  have hm1 : 1 ≤ ((truncMerge svE svO (usize maxDim) cutoff).map Triple.sv).length := by
    rw [List.length_map]
    omega
  have hm2 : ((truncMerge svE svO (usize maxDim) cutoff).map Triple.sv).length < 2 ^ 64 := by
    rw [List.length_map]
    omega
  have herr : checkDecreasing ((truncMerge svE svO (usize maxDim) cutoff).map Triple.sv) =
      Except.error (IrError.runtimeError sv_error_msg) := by
    rw [checkDecreasing, checkBound_eq hm1 hm2]
    exact checkSteps_error_msg _ _ 0
      ⟨l, Nat.zero_le l, by rw [List.length_map]; omega, hv⟩
      (by rw [List.length_map]; rw [List.length_map] at hm1; omega)
  unfold generate_ir_basis_functions_impl
  rw [herr]
  rfl

/-- Witness for claim C8's amended theorem at a concrete input whose merged
sequence `[1, 2, 1]` violates monotonicity at index 0. -/
theorem C8_monotonicity_fatal_witness :
    (0 + 1 < (truncMerge [1, 1] [2, 2] (usize 3) (1/10)).length ∧
     ((truncMerge [1, 1] [2, 2] (usize 3) (1/10)).map Triple.sv).getD 0 0 <
     ((truncMerge [1, 1] [2, 2] (usize 3) (1/10)).map Triple.sv).getD (0 + 1) 0) ∧
    generate_ir_basis_functions_impl 3 (1/10) [1, 1] [2, 2] =
      Except.error (IrError.runtimeError sv_error_msg) := by
  have h3 : usize 3 = 3 := by decide
  have hres : truncMerge [1, 1] [2, 2] (usize 3) (1/10) =
      [Triple.mk 1 Sector.even 0, Triple.mk 2 Sector.odd 0,
       Triple.mk 1 Sector.even 1] := by
    rw [h3]
    norm_num [truncMerge, truncLoop, List.getD]
  have hh : 0 + 1 < (truncMerge [1, 1] [2, 2] (usize 3) (1/10)).length ∧
      ((truncMerge [1, 1] [2, 2] (usize 3) (1/10)).map Triple.sv).getD 0 0 <
      ((truncMerge [1, 1] [2, 2] (usize 3) (1/10)).map Triple.sv).getD (0 + 1) 0 := by
    rw [hres]
    norm_num [List.getD]
  exact ⟨hh, C8_monotonicity_fatal 3 (1/10) [1, 1] [2, 2] ⟨0, hh.1, hh.2⟩⟩

/-- Claim C9 counterexample: the invalid configuration `max_dim = 0`
(together with any cutoff and Nl) is NOT rejected with a
ConfigurationError; the pipeline proceeds and instead dies with the
out-of-bounds read of claim C10. -/
theorem C9_counterexample :
    generate_ir_basis_functions 0 (1/2) 10 [1] [1] = Except.error IrError.oobRead ∧
    (Except.error IrError.oobRead : Except IrError (List Triple)) ≠
      Except.error IrError.configurationError := by
  constructor
  · have h0 : usize 0 = 0 := by decide
    unfold generate_ir_basis_functions generate_ir_basis_functions_impl
    rw [h0, truncMerge_zero]
    have hmap : (([] : List Triple)).map Triple.sv = ([] : List ℚ) := rfl
    rw [hmap, checkDecreasing_nil]
    rfl
  · simp

/-- Claim C9 (amended): the construction performs no configuration
validation at all: for every configuration, valid or invalid, the result is
never a ConfigurationError (the only failures are the monotonicity
`runtime_error` and the out-of-bounds read). -/
theorem C9_no_config_validation (maxDim : Int) (cutoff : ℚ) (Nl : Int)
    (svE svO : List ℚ) :
    generate_ir_basis_functions maxDim cutoff Nl svE svO ≠
      Except.error IrError.configurationError := by
  unfold generate_ir_basis_functions generate_ir_basis_functions_impl
  intro h
  have h2 := except_map_error_inv _ _ _ h
  exact checkSteps_no_config _ _ _ h2

/-- Claim C10: for every call whose truncation loop emits zero triples, the
loop bound `sv.size() - 1` wraps around to `2^64 - 1` in unsigned
arithmetic and the monotonicity-check loop reads the empty vector out of
bounds instead of terminating immediately. -/
theorem C10_empty_sv_oob_read (maxDim : Int) (cutoff : ℚ) (svE svO : List ℚ)
    (h : truncMerge svE svO (usize maxDim) cutoff = []) :
    checkBound 0 = 2 ^ 64 - 1 ∧
    generate_ir_basis_functions_impl maxDim cutoff svE svO =
      Except.error IrError.oobRead := by
  refine ⟨by norm_num [checkBound], ?_⟩
  unfold generate_ir_basis_functions_impl
  rw [h]
  have hmap : (([] : List Triple)).map Triple.sv = ([] : List ℚ) := rfl
  rw [hmap, checkDecreasing_nil]
  rfl

/-- Witness for claim C10's theorem: `max_dim = 0` makes the truncation
loop emit nothing. -/
theorem C10_empty_sv_oob_read_witness :
    truncMerge [1] [1] (usize 0) (1/2) = [] ∧
    (checkBound 0 = 2 ^ 64 - 1 ∧
     generate_ir_basis_functions_impl 0 (1/2) [1] [1] =
       Except.error IrError.oobRead) := by
  have h : truncMerge [1] [1] (usize 0) (1/2) = [] := by
    have h0 : usize 0 = 0 := by decide
    rw [h0, truncMerge_zero]
  exact ⟨h, C10_empty_sv_oob_read 0 (1/2) [1] [1] h⟩

/-- Claim C3: for every Λ > 0 and x, y in [-1,1] the fermionic kernel
evaluates exactly to the branchwise closed form of the spec: the positive
asymptotic exponential above Λ·y = 200, the negative asymptotic exponential
below Λ·y = -200, and exp(-(Λ/2)xy)/(2·cosh((Λ/2)y)) otherwise. -/
theorem C3_fermionic_kernel (Λ x y : ℝ) (hΛ : 0 < Λ)
    (hx : x ∈ Set.Icc (-1:ℝ) 1) (hy : y ∈ Set.Icc (-1:ℝ) 1) :
    fermionic_kernel Λ x y = specFermionicKernel Λ x y := by
  have hh : (1/2 : ℝ) * Λ = Λ / 2 := by ring
  rw [fermionic_kernel, specFermionicKernel, hh]

/-- Witness for claim C3's theorem at Λ = 1, x = 0, y = 0. -/
theorem C3_fermionic_kernel_witness :
    (0:ℝ) < 1 ∧ (0:ℝ) ∈ Set.Icc (-1:ℝ) 1 ∧
    fermionic_kernel 1 0 0 = specFermionicKernel 1 0 0 :=
  ⟨by norm_num, ⟨by norm_num, by norm_num⟩,
    C3_fermionic_kernel 1 0 0 (by norm_num) ⟨by norm_num, by norm_num⟩
      ⟨by norm_num, by norm_num⟩⟩

/-- Claim C4 counterexample: at Λ = 300, x = 0, y = -1 (so Λ·y = -300 is
below the negative threshold) the code computes
-y·exp(-(Λ/2)xy + (Λ/2)y) = exp(-150) > 0, while the claim's form with
leading factor y gives -exp(-150) < 0. -/
theorem C4_counterexample :
    bosonic_kernel 300 0 (-1) ≠ specBosonicKernel 300 0 (-1) := by
  have h1 : bosonic_kernel 300 0 (-1) = Real.exp (-150) := by
    rw [bosonic_kernel]
    rw [if_neg (by norm_num), if_neg (by norm_num), if_pos (by norm_num)]
    norm_num
  have h2 : specBosonicKernel 300 0 (-1) = -Real.exp (-150) := by
    rw [specBosonicKernel]
    rw [if_neg (by norm_num), if_neg (by norm_num), if_pos (by norm_num)]
    norm_num
  rw [h1, h2]
  intro hcontra
  have hpos := Real.exp_pos (-150 : ℝ)
  linarith

/-- Claim C4 (amended): for every Λ > 0 and x, y in [-1,1] the bosonic
kernel evaluates to exp(-(Λ/2)xy)/Λ when |Λ·y| < 1e-30, and otherwise
follows the fermionic branch structure with sinh in place of cosh, with
leading factor y in the central and positive-asymptotic branches and
leading factor -y in the negative-asymptotic branch. -/
theorem C4_bosonic_kernel_amended (Λ x y : ℝ) (hΛ : 0 < Λ)
    (hx : x ∈ Set.Icc (-1:ℝ) 1) (hy : y ∈ Set.Icc (-1:ℝ) 1) :
    bosonic_kernel Λ x y = specBosonicKernelAmended Λ x y := by
  have hh : (1/2 : ℝ) * Λ = Λ / 2 := by ring
  rw [bosonic_kernel, specBosonicKernelAmended, hh]

/-- Witness for claim C4's amended theorem at Λ = 1, x = 0, y = 0. -/
theorem C4_bosonic_kernel_amended_witness :
    (0:ℝ) < 1 ∧ (0:ℝ) ∈ Set.Icc (-1:ℝ) 1 ∧
    bosonic_kernel 1 0 0 = specBosonicKernelAmended 1 0 0 :=
  ⟨by norm_num, ⟨by norm_num, by norm_num⟩,
    C4_bosonic_kernel_amended 1 0 0 (by norm_num) ⟨by norm_num, by norm_num⟩
      ⟨by norm_num, by norm_num⟩⟩

/-- The reflection-evaluation scheme of `ulx`/`vly` satisfies the parity
identity at every non-zero argument, and at zero when the parity sign is
`+1`. -/
lemma reflect_parity (g : ℝ → ℝ) (l : Nat) (x : ℝ) (h : x ≠ 0 ∨ l % 2 = 0) :
    (if -x ≥ 0 then g (-x) else g (-(-x)) * (if l % 2 = 0 then 1 else -1)) =
    (if l % 2 = 0 then (1:ℝ) else -1) *
    (if x ≥ 0 then g x else g (-x) * (if l % 2 = 0 then 1 else -1)) := by
  rcases lt_trichotomy x 0 with hx | hx | hx
  · rw [if_pos (by linarith : -x ≥ 0), if_neg (by linarith : ¬ x ≥ 0)]
    by_cases hp : l % 2 = 0
    · rw [if_pos hp]
      ring
    · rw [if_neg hp]
      ring
  · subst hx
    have hp : l % 2 = 0 := by
      rcases h with h | h
      · exact absurd rfl h
      · exact h
    rw [if_pos hp]
    rw [neg_zero]
    rw [if_pos (le_refl (0:ℝ)), if_pos (le_refl (0:ℝ))]
    ring
  · rw [if_neg (by linarith : ¬ -x ≥ 0), if_pos (by linarith : x ≥ 0), neg_neg]
    by_cases hp : l % 2 = 0
    · rw [if_pos hp]
      ring
    · rw [if_neg hp]
      ring

/-- Claim C5 counterexample: with a stored basis function that does not
vanish at 0 (here the constant 1) and odd index l = 1, the parity identity
fails at x = 0: both `ulx_val l (-0)` and `ulx_val l 0` evaluate the stored
function at 0, so the identity would force `u_l(0) = -u_l(0)`.  Nothing in
the construction pipeline forces the stored piecewise polynomial of an
odd-parity basis function to vanish exactly at 0 (its value there is the
truncated Legendre expansion of the singular vector at the section edge). -/
theorem C5_counterexample :
    ¬ (ulx_val [fun _ => (1:ℝ), fun _ => 1] 1 (-0) =
       (if 1 % 2 = 0 then (1:ℝ) else -1) * ulx_val [fun _ => (1:ℝ), fun _ => 1] 1 0) := by
  have h0 : ulx_val [fun _ => (1:ℝ), fun _ => 1] 1 (-0) = 1 := by
    rw [neg_zero, ulx_val, if_pos (le_refl (0:ℝ))]
    rfl
  have h1 : ulx_val [fun _ => (1:ℝ), fun _ => 1] 1 0 = 1 := by
    rw [ulx_val, if_pos (le_refl (0:ℝ))]
    rfl
  rw [h0, h1, if_neg (by norm_num)]
  norm_num

/-- Claim C5 (amended): for every stored basis-function family, every index
and every x in [-1,1] that is non-zero or has even index, the facade
evaluations satisfy the exact parity identities
`ulx(l,-x) = (-1)^l ulx(l,x)` and `vly(l,-y) = (-1)^l vly(l,y)`, realized
by evaluating negative arguments at the reflected positive argument with
the fixed parity sign.  At x = 0 with odd l the identity holds only if the
stored function vanishes at 0, which the construction does not enforce. -/
theorem C5_parity_amended (ub vb : List BasisFun) (l : Nat) (x : ℝ)
    (hx : x ∈ Set.Icc (-1:ℝ) 1) (h : x ≠ 0 ∨ l % 2 = 0) :
    ulx_val ub l (-x) = (if l % 2 = 0 then (1:ℝ) else -1) * ulx_val ub l x ∧
    vly_val vb l (-x) = (if l % 2 = 0 then (1:ℝ) else -1) * vly_val vb l x := by
  constructor
  · show (if -x ≥ 0 then ub.getD l default (-x)
        else ub.getD l default (-(-x)) * (if l % 2 = 0 then 1 else -1)) = _
    rw [reflect_parity (ub.getD l default) l x h]
    rfl
  · show (if -x ≥ 0 then vb.getD l default (-x)
        else vb.getD l default (-(-x)) * (if l % 2 = 0 then 1 else -1)) = _
    rw [reflect_parity (vb.getD l default) l x h]
    rfl

/-- Witness for claim C5's amended theorem at l = 0, x = 1/2. -/
theorem C5_parity_amended_witness :
    ((1:ℝ)/2 ∈ Set.Icc (-1:ℝ) 1) ∧
    (ulx_val [fun _ => (1:ℝ)] 0 (-(1/2)) =
      (if 0 % 2 = 0 then (1:ℝ) else -1) * ulx_val [fun _ => (1:ℝ)] 0 (1/2) ∧
     vly_val [fun _ => (2:ℝ)] 0 (-(1/2)) =
      (if 0 % 2 = 0 then (1:ℝ) else -1) * vly_val [fun _ => (2:ℝ)] 0 (1/2)) :=
  ⟨⟨by norm_num, by norm_num⟩,
    C5_parity_amended [fun _ => (1:ℝ)] [fun _ => (2:ℝ)] 0 (1/2)
      ⟨by norm_num, by norm_num⟩ (Or.inl (by norm_num))⟩

/-- Claim C6: after the endpoint sign normalization, every u basis function
is non-negative at x = 1, and each pair (u_l, v_l) is either both kept or
both negated. -/
theorem C6_endpoint_sign (upp vpp : List BasisFun) (hlen : upp.length = vpp.length) :
    ∀ i, i < upp.length →
      0 ≤ ((normalize_signs upp vpp).1.getD i default) 1 ∧
      (((normalize_signs upp vpp).1.getD i default = upp.getD i default ∧
        (normalize_signs upp vpp).2.getD i default = vpp.getD i default) ∨
       ((normalize_signs upp vpp).1.getD i default =
          (fun x => -(upp.getD i default x)) ∧
        (normalize_signs upp vpp).2.getD i default =
          (fun x => -(vpp.getD i default x)))) := by
  induction upp generalizing vpp with
  | nil =>
    intro i hi
    simp at hi
  | cons u us ih =>
    intro i hi
    cases vpp with
    | nil => simp at hlen
    | cons v vs =>
      have hlen2 : us.length = vs.length := by
        simp only [List.length_cons] at hlen
        omega
      by_cases hc : u 1 < 0
      · have hns : normalize_signs (u :: us) (v :: vs) =
            ((fun x => -(u x)) :: (normalize_signs us vs).1,
             (fun x => -(v x)) :: (normalize_signs us vs).2) := by
          rw [normalize_signs, if_pos hc]
        rw [hns]
        cases i with
        | zero =>
          constructor
          · show (0:ℝ) ≤ -(u 1)
            linarith
          · exact Or.inr ⟨rfl, rfl⟩
        | succ j =>
          have hj : j < us.length := by
            simp only [List.length_cons] at hi
            omega
          have := ih vs hlen2 j hj
          simpa only [List.getD_cons_succ] using this
      · have hns : normalize_signs (u :: us) (v :: vs) =
            (u :: (normalize_signs us vs).1, v :: (normalize_signs us vs).2) := by
          rw [normalize_signs, if_neg hc]
        rw [hns]
        cases i with
        | zero =>
          constructor
          · show (0:ℝ) ≤ u 1
            exact not_lt.mp hc
          · exact Or.inl ⟨rfl, rfl⟩
        | succ j =>
          have hj : j < us.length := by
            simp only [List.length_cons] at hi
            omega
          have := ih vs hlen2 j hj
          simpa only [List.getD_cons_succ] using this

/-- Witness for claim C6's theorem: a u-function negative at the endpoint
gets flipped together with its paired v-function. -/
theorem C6_endpoint_sign_witness :
    ([fun _ => (-1:ℝ)] : List BasisFun).length = ([fun _ => (5:ℝ)] : List BasisFun).length ∧
    (0 ≤ ((normalize_signs [fun _ => (-1:ℝ)] [fun _ => (5:ℝ)]).1.getD 0 default) 1 ∧
     (((normalize_signs [fun _ => (-1:ℝ)] [fun _ => (5:ℝ)]).1.getD 0 default =
         ([fun _ => (-1:ℝ)] : List BasisFun).getD 0 default ∧
       (normalize_signs [fun _ => (-1:ℝ)] [fun _ => (5:ℝ)]).2.getD 0 default =
         ([fun _ => (5:ℝ)] : List BasisFun).getD 0 default) ∨
      ((normalize_signs [fun _ => (-1:ℝ)] [fun _ => (5:ℝ)]).1.getD 0 default =
         (fun x => -(([fun _ => (-1:ℝ)] : List BasisFun).getD 0 default x)) ∧
       (normalize_signs [fun _ => (-1:ℝ)] [fun _ => (5:ℝ)]).2.getD 0 default =
         (fun x => -(([fun _ => (5:ℝ)] : List BasisFun).getD 0 default x))))) :=
  ⟨rfl, C6_endpoint_sign [fun _ => (-1:ℝ)] [fun _ => (5:ℝ)] rfl 0 (by norm_num)⟩

/-- Claim C7: evaluating `ulx`/`vly` with index l = dim or l = -1 fails
with the index-range `std::runtime_error`, and evaluating with argument
3/2 or -3/2 (any argument outside [-1,1]) fails with the domain
`std::runtime_error`; the index check precedes the domain check and both
precede any evaluation of the stored basis functions (the result is the
same for every stored family). -/
theorem C7_index_domain_validation (ub vb : List BasisFun) (x y : ℝ) (l : Int)
    (hl0 : 0 ≤ l) (hl1 : l < (ub.length : Int)) (hl2 : l < (vb.length : Int)) :
    ulx ub (ub.length : Int) x =
      Except.error (IrError.runtimeError "Index l is out of range.") ∧
    ulx ub (-1) x = Except.error (IrError.runtimeError "Index l is out of range.") ∧
    vly vb (vb.length : Int) y =
      Except.error (IrError.runtimeError "Index l is out of range.") ∧
    vly vb (-1) y = Except.error (IrError.runtimeError "Index l is out of range.") ∧
    ulx ub l (3/2) = Except.error (IrError.runtimeError "x must be in [-1,1].") ∧
    ulx ub l (-(3/2)) = Except.error (IrError.runtimeError "x must be in [-1,1].") ∧
    vly vb l (3/2) = Except.error (IrError.runtimeError "y must be in [-1,1].") ∧
    vly vb l (-(3/2)) = Except.error (IrError.runtimeError "y must be in [-1,1].") := by
  refine ⟨?_, ?_, ?_, ?_, ?_, ?_, ?_, ?_⟩
  · rw [ulx, if_neg (by push_neg; intro _; exact le_refl _)]
  · rw [ulx, if_neg (by push_neg; intro habs; omega)]
  · rw [vly, if_neg (by push_neg; intro _; exact le_refl _)]
  · rw [vly, if_neg (by push_neg; intro habs; omega)]
  · rw [ulx, if_pos ⟨hl0, hl1⟩, if_neg (by push_neg; intro _; norm_num)]
  · rw [ulx, if_pos ⟨hl0, hl1⟩, if_neg (by intro hcon; have := hcon.1; norm_num at this)]
  · rw [vly, if_pos ⟨hl0, hl2⟩, if_neg (by push_neg; intro _; norm_num)]
  · rw [vly, if_pos ⟨hl0, hl2⟩, if_neg (by intro hcon; have := hcon.1; norm_num at this)]

/-- Witness for claim C7's theorem on a one-element basis with l = 0. -/
theorem C7_index_domain_validation_witness :
    (0 : Int) ≤ 0 ∧ (0 : Int) < (([fun _ => (0:ℝ)] : List BasisFun).length : Int) ∧
    (ulx [fun _ => (0:ℝ)] (([fun _ => (0:ℝ)] : List BasisFun).length : Int) 0 =
      Except.error (IrError.runtimeError "Index l is out of range.") ∧
    ulx [fun _ => (0:ℝ)] (-1) 0 =
      Except.error (IrError.runtimeError "Index l is out of range.") ∧
    vly [fun _ => (0:ℝ)] (([fun _ => (0:ℝ)] : List BasisFun).length : Int) 0 =
      Except.error (IrError.runtimeError "Index l is out of range.") ∧
    vly [fun _ => (0:ℝ)] (-1) 0 =
      Except.error (IrError.runtimeError "Index l is out of range.") ∧
    ulx [fun _ => (0:ℝ)] 0 (3/2) =
      Except.error (IrError.runtimeError "x must be in [-1,1].") ∧
    ulx [fun _ => (0:ℝ)] 0 (-(3/2)) =
      Except.error (IrError.runtimeError "x must be in [-1,1].") ∧
    vly [fun _ => (0:ℝ)] 0 (3/2) =
      Except.error (IrError.runtimeError "y must be in [-1,1].") ∧
    vly [fun _ => (0:ℝ)] 0 (-(3/2)) =
      Except.error (IrError.runtimeError "y must be in [-1,1].")) :=
  ⟨le_refl 0, by norm_num,
    C7_index_domain_validation [fun _ => (0:ℝ)] [fun _ => (0:ℝ)] 0 0 0
      (le_refl 0) (by norm_num) (by norm_num)⟩

end Irlib
